import Mathlib

set_option maxHeartbeats 1000000

attribute [local semireducible] Rat.mul Rat.inv Rat.add Rat.sub

/-! Shallow embedding of the solana-cex-tracker listener repository:
    src/services/ranges.ts, src/services/blockParser.ts,
    src/services/blockMonitorListener.ts and the log-subscription
    (transaction monitor) listener concatenated after ranges.ts.
    JavaScript values that may be undefined are modelled with Option;
    JS numbers appearing as amounts are modelled exactly with ℚ. -/

/-- Whitespace recognised by JS trim, restricted to the forms that occur in
the repository's configuration strings. -/
def isJsSpace (c : Char) : Bool :=
  c = ' ' || c = '\t' || c = '\n' || c = '\r'

/-- JS String.prototype.split with a one-character separator, on the
character list of the string: the empty string gives one empty piece and a
separator at either end gives an empty piece, exactly as in JS. -/
def splitChars (sep : Char) : List Char → List (List Char)
  | [] => [[]]
  | c :: t =>
    let r := splitChars sep t
    if c = sep then [] :: r
    else (c :: r.headD []) :: r.tail

/-- JS String.prototype.split with a one-character separator. -/
def jsSplit (s : String) (sep : Char) : List String :=
  (splitChars sep s.data).map String.mk

/-- JS String.prototype.trim. -/
def jsTrim (s : String) : String :=
  String.mk (((s.data.dropWhile isJsSpace).reverse.dropWhile isJsSpace).reverse)

/-- Numeric value of a list of decimal digit characters, most significant first. -/
def decDigitsVal (cs : List Char) : Nat :=
  cs.foldl (fun a c => a * 10 + (c.toNat - 48)) 0

/-- Model of the JavaScript Number() conversion restricted to the decimal
string shapes the repository feeds it (optional sign, decimal digits,
optional fraction part). The empty string converts to 0, as in JS; a
string that fails to parse yields none, modelling NaN. Exponent, hex and
Infinity forms never occur in the range strings and are not modelled. -/
def jsNumber (s : String) : Option ℚ :=
  match s.data with
  | [] => some 0
  | c :: t =>
    let signed : ℚ × List Char :=
      if c = '-' then (-1, t) else if c = '+' then (1, t) else (1, c :: t)
    let intPart := signed.2.takeWhile Char.isDigit
    let rest := signed.2.dropWhile Char.isDigit
    match rest with
    | [] => if intPart = [] then none else some (signed.1 * decDigitsVal intPart)
    | d :: fracPart =>
      if d = '.' ∧ fracPart.all Char.isDigit ∧ (intPart ≠ [] ∨ fracPart ≠ []) then
        some (signed.1 * ((decDigitsVal intPart : ℚ)
          + (decDigitsVal fracPart : ℚ) / (10 : ℚ) ^ fracPart.length))
      else none

/-- Mirror of the Range type of ranges.ts. -/
structure Range where
  min : ℚ
  max : ℚ
deriving DecidableEq, Repr

/-- The token callback inside parseRanges (ranges.ts lines 9-17): split the
token on dashes, trim the parts, convert with Number(); a missing second
part reuses the first; a NaN on either side drops the token (returns null,
removed by the trailing filter). -/
def parseRangeToken (token : String) : Option Range :=
  let parts := (jsSplit token '-').map jsTrim
  let a := parts.headD ""
  let minV := jsNumber a
  let maxV := match parts[1]? with
    | some b => jsNumber b
    | none => jsNumber a
  match minV, maxV with
  | some mn, some mx => some { min := mn, max := mx }
  | _, _ => none

/-- Mirror of parseRanges (ranges.ts lines 3-19). A missing or empty
string (falsy in JS) yields the empty list; otherwise split on commas,
trim, drop empty tokens, and keep the tokens the token callback accepts. -/
def parseRanges (rangeStr : Option String) : List Range :=
  match rangeStr with
  | none => []
  | some s =>
    if s = "" then []
    else (((jsSplit s ',').map jsTrim).filter (· != "")).filterMap parseRangeToken

/-- Mirror of amountMatchesRanges (ranges.ts lines 21-26). -/
def amountMatchesRanges (amount : ℚ) (ranges : List Range) : Bool :=
  ranges.any (fun r => decide (r.min ≤ amount) && decide (amount ≤ r.max))

/-- The System Program pubkey constant of blockParser.ts line 7. -/
def SYSTEM_PROGRAM : String := "11111111111111111111111111111111"

/-- The info object of a parsed (jsonParsed) transfer instruction
(blockParser.ts lines 28-37). The source is dynamically typed, so every
field may be absent (undefined), modelled by Option. The lamports field
is a JS number; the integral values the chain delivers are modelled by Int. -/
structure TransferInfo where
  source : Option String
  destination : Option String
  lamports : Option Int
deriving DecidableEq, Repr

/-- The instr.parsed object of a structured instruction (blockParser.ts
lines 22-39): a decoded type tag and the info payload. -/
structure ParsedIx where
  type : String
  info : Option TransferInfo
deriving DecidableEq, Repr

/-- One instruction of a transaction message, as blockParser.ts reads it:
parsed/program are set on structured (getParsedTransaction) encodings,
programIdIndex/data/accounts on raw ones; any field may be absent. The
data field holds the decoded payload bytes (the source base58-decodes a
string form first); none models a payload that is neither a string nor a
byte array. -/
structure Instruction where
  parsed : Option ParsedIx
  program : Option String
  programIdIndex : Option Nat
  data : Option (List Nat)
  accounts : Option (List Nat)
deriving DecidableEq, Repr

/-- The message of a transaction: the account table under either of its
two names, and the instruction list (blockParser.ts lines 14-18). -/
structure TxMessage where
  staticAccountKeys : Option (List String)
  accountKeys : Option (List String)
  instructions : Option (List Instruction)
deriving DecidableEq, Repr

/-- The tx.transaction object. -/
structure TxInner where
  message : TxMessage
deriving DecidableEq, Repr

/-- A transaction as parseBlockTransactions receives it: the meta field is
only tested for presence (blockParser.ts lines 11-12). -/
structure Tx where
  meta : Option Unit
  transaction : TxInner
deriving DecidableEq, Repr

/-- An extracted outflow (blockParser.ts line 4). The receiver is a JS
string or undefined: the structured branch pushes info.destination without
checking it is present. -/
structure Outflow where
  amount : ℚ
  receiver : Option String
  type : String
deriving DecidableEq, Repr

/-- Account-table selection of blockParser.ts line 15:
message.staticAccountKeys or else message.accountKeys or else empty (an
empty array is truthy in JS, so presence decides). -/
def accountKeysOf (m : TxMessage) : List String :=
  ((m.staticAccountKeys).orElse (fun _ => m.accountKeys)).getD []

/-- Unsigned little-endian value of a byte list (the
readBigUInt64LE call of blockParser.ts line 74, applied to the 8-byte
slice). The Number() conversion around it is exact for the values below
2^53 that this development evaluates. -/
def le64 (bytes : List Nat) : Nat :=
  bytes.reverse.foldl (fun acc b => acc * 256 + b) 0

/-- The structured-instruction branch of parseBlockTransactions
(blockParser.ts lines 22-44): a transfer-typed instruction with an info
object whose source is the watched address and whose lamports are
positive yields one outflow; the destination is pushed unchecked. -/
def outflowsOfParsed (p : ParsedIx) (cexAddress : String) : List Outflow :=
  if p.type = "transfer" then
    match p.info with
    | none => []
    | some info =>
      match info.lamports with
      | some v =>
        if info.source = some cexAddress ∧ 0 < v then
          [{ amount := (v : ℚ) / 1000000000, receiver := info.destination, type := "SOL" }]
        else []
      | none => []
  else []

/-- The raw-instruction branch of parseBlockTransactions (blockParser.ts
lines 47-105): resolve the program by index, require the System Program,
require a payload of at least 12 bytes starting with the discriminator
2,0,0,0, decode bytes 4..12 as a little-endian u64 that must be positive,
require at least two account indices, require the first to resolve to the
watched address; the second resolves to the receiver, with a missing
entry stringified to the literal text undefined, and only a truthy
(non-empty) receiver is pushed. -/
def outflowsOfRaw (keys : List String) (cexAddress : String) (i : Instruction) : List Outflow :=
  match i.programIdIndex with
  | none => []
  | some programIdx =>
    if keys[programIdx]? = some SYSTEM_PROGRAM then
      match i.data with
      | none => []
      | some instrData =>
        if instrData.length < 12 then []
        else if ¬(instrData[0]? = some 2 ∧ instrData[1]? = some 0 ∧
                  instrData[2]? = some 0 ∧ instrData[3]? = some 0) then []
        else
          let transferAmountLamports := le64 ((instrData.drop 4).take 8)
          if transferAmountLamports ≤ 0 then []
          else
            match i.accounts.getD [] with
            | fromIdx :: toIdx :: _ =>
              if keys[fromIdx]? = some cexAddress then
                let receiver := match keys[toIdx]? with
                  | some s => s
                  | none => "undefined"
                if receiver ≠ "" then
                  [{ amount := (transferAmountLamports : ℚ) / 1000000000,
                     receiver := some receiver, type := "SOL" }]
                else []
              else []
            | _ => []
    else []

/-- Per-instruction dispatch of parseBlockTransactions: the structured
branch handles an instruction iff instr.parsed is present and
instr.program equals system (and then always continues to the next
instruction); every other instruction goes through the raw branch. -/
def instrOutflows (keys : List String) (cexAddress : String) (i : Instruction) : List Outflow :=
  match i.parsed with
  | some p =>
    if i.program = some "system" then outflowsOfParsed p cexAddress
    else outflowsOfRaw keys cexAddress i
  | none => outflowsOfRaw keys cexAddress i

/-- Mirror of parseBlockTransactions (blockParser.ts lines 9-109): an
absent meta yields no outflows; otherwise every instruction of the
message contributes its outflows in order. -/
def parseBlockTransactions (tx : Tx) (cexAddress : String) : List Outflow :=
  match tx.meta with
  | none => []
  | some _ =>
    let keys := accountKeysOf tx.transaction.message
    (tx.transaction.message.instructions.getD []).flatMap (instrOutflows keys cexAddress)

/-- Mirror of attemptAdvance (blockMonitorListener.ts lines 185-203) on
the scheduler state it touches: lastSlot and the processed-slot set.
While lastSlot+1 is in the set, remove it, advance lastSlot to it and
persist. Returns the new lastSlot, the remaining set, and the sequence
of persisted checkpoint values in the order saveLastSlot was called. -/
def attemptAdvance (lastSlot : Nat) (processedSlots : Finset Nat) :
    Nat × Finset Nat × List Nat :=
  if h : lastSlot + 1 ∈ processedSlots then
    let r := attemptAdvance (lastSlot + 1) (processedSlots.erase (lastSlot + 1))
    (r.1, r.2.1, (lastSlot + 1) :: r.2.2)
  else (lastSlot, processedSlots, [])
termination_by processedSlots.card
decreasing_by simp_wf; exact Finset.card_erase_lt_of_mem h

/-- Startup resume-point computation of startBlockMonitorListener
(blockMonitorListener.ts lines 60-87): the persisted checkpoint map is
loaded by loadLastSlot but its value is never consulted; lastSlot starts
at 0 and is then set from getSlot when that call succeeds, so the
scheduler always monitors forward from the current tip. -/
def initialLastSlot (persistedLastSlot : Option Nat) (currentTip : Option Nat) : Nat :=
  match currentTip with
  | some tip => tip
  | none => 0

/-- The scheduler state doFetch consults before starting a fetch. -/
structure SchedState where
  lastSlot : Nat
  inFlightFetches : Finset Nat
  processedSlots : Finset Nat
deriving DecidableEq

/-- The synchronous admission prefix of doFetch (blockMonitorListener.ts
lines 95-98), the part that runs atomically before the first await: a
slot at or below the checkpoint, already in flight, or already processed
is rejected; otherwise it is added to the in-flight set and the fetch
starts. Returns the new state and whether a fetch was started. -/
def doFetchStart (st : SchedState) (s : Nat) : SchedState × Bool :=
  if s ≤ st.lastSlot then (st, false)
  else if s ∈ st.inFlightFetches ∨ s ∈ st.processedSlots then (st, false)
  else ({ st with inFlightFetches := insert s st.inFlightFetches }, true)

/-- Capacity bound of the recently-seen signature set
(transaction monitor listener, processedTxsMaxSize). -/
def processedTxsMaxSize : Nat := 10000

/-- Signature deduplication step of the onLogs handler in the
transaction monitor listener: an already-seen signature is skipped;
otherwise it is added, and when the set then exceeds processedTxsMaxSize
the first half of the entries in insertion order are deleted. The JS Set
iterates in insertion order and is modelled as a duplicate-free list;
the returned Bool is whether the event is processed further. -/
def dedupSignature (processedTxs : List String) (signature : String) :
    List String × Bool :=
  if signature ∈ processedTxs then (processedTxs, false)
  else if processedTxsMaxSize < (processedTxs ++ [signature]).length then
    ((processedTxs ++ [signature]).drop (processedTxsMaxSize / 2), true)
  else (processedTxs ++ [signature], true)

/-- Unfolding of attemptAdvance when the next slot is processed. -/
theorem attemptAdvance_of_mem (c : Nat) (S : Finset Nat) (h : c + 1 ∈ S) :
    attemptAdvance c S =
      ((attemptAdvance (c + 1) (S.erase (c + 1))).1,
       (attemptAdvance (c + 1) (S.erase (c + 1))).2.1,
       (c + 1) :: (attemptAdvance (c + 1) (S.erase (c + 1))).2.2) := by
  rw [attemptAdvance]; simp [h]

/-- Unfolding of attemptAdvance at the first gap. -/
theorem attemptAdvance_of_not_mem (c : Nat) (S : Finset Nat) (h : c + 1 ∉ S) :
    attemptAdvance c S = (c, S, []) := by
  rw [attemptAdvance]; simp [h]

/-- The checkpoint never decreases across an advance call. -/
theorem attemptAdvance_le (c : Nat) (S : Finset Nat) : c ≤ (attemptAdvance c S).1 := by
  induction c, S using attemptAdvance.induct with
  | case1 c S h ih =>
    rw [attemptAdvance_of_mem c S h]
    exact le_trans (Nat.le_succ c) ih
  | case2 c S h =>
    rw [attemptAdvance_of_not_mem c S h]

/-- Every slot the checkpoint passes over was in the processed set: the
advance never skips a slot and never moves past an unprocessed one. -/
theorem attemptAdvance_mem_of_passed (c : Nat) (S : Finset Nat) :
    ∀ k, c < k → k ≤ (attemptAdvance c S).1 → k ∈ S := by
  induction c, S using attemptAdvance.induct with
  | case1 c S h ih =>
    intro k hck hk
    rw [attemptAdvance_of_mem c S h] at hk
    rcases eq_or_lt_of_le (Nat.succ_le_of_lt hck) with heq | hlt
    · exact heq ▸ h
    · exact Finset.mem_of_mem_erase (ih k hlt hk)
  | case2 c S h =>
    intro k hck hk
    rw [attemptAdvance_of_not_mem c S h] at hk
    omega

/-- The advance stops exactly at the first gap: the slot after the new
checkpoint was never in the processed set. -/
theorem attemptAdvance_stops_at_gap (c : Nat) (S : Finset Nat) :
    (attemptAdvance c S).1 + 1 ∉ S := by
  induction c, S using attemptAdvance.induct with
  | case1 c S h ih =>
    rw [attemptAdvance_of_mem c S h]
    intro hmem
    have hge : c + 1 ≤ (attemptAdvance (c + 1) (S.erase (c + 1))).1 := attemptAdvance_le _ _
    exact ih (Finset.mem_erase.mpr ⟨by omega, hmem⟩)
  | case2 c S h =>
    rw [attemptAdvance_of_not_mem c S h]
    exact h

/-- One persist per advanced slot, in ascending order: the saved
checkpoint values are exactly c+1, c+2, ..., up to the new checkpoint. -/
theorem attemptAdvance_saves (c : Nat) (S : Finset Nat) :
    (attemptAdvance c S).2.2 = List.range' (c + 1) ((attemptAdvance c S).1 - c) := by
  induction c, S using attemptAdvance.induct with
  | case1 c S h ih =>
    rw [attemptAdvance_of_mem c S h]
    have hge : c + 1 ≤ (attemptAdvance (c + 1) (S.erase (c + 1))).1 := attemptAdvance_le _ _
    simp only []
    rw [ih]
    have hsub : (attemptAdvance (c + 1) (S.erase (c + 1))).1 - c
        = ((attemptAdvance (c + 1) (S.erase (c + 1))).1 - (c + 1)) + 1 := by omega
    rw [hsub, List.range'_succ]
  | case2 c S h =>
    rw [attemptAdvance_of_not_mem c S h]
    simp

/-- Concrete advance from checkpoint 4 with processed slots 5 and 7:
one call moves the checkpoint to 5 only, removes 5, persists 5. -/
theorem attemptAdvance_example1 :
    attemptAdvance 4 ({5, 7} : Finset ℕ) = (5, {7}, [5]) := by
  rw [attemptAdvance_of_mem 4 _ (by decide)]
  norm_num
  rw [attemptAdvance_of_not_mem _ _ (by decide)]
  exact ⟨rfl, rfl, rfl⟩

/-- Concrete advance from checkpoint 5 after slot 6 is also processed:
a subsequent call moves the checkpoint through 6 to 7. -/
theorem attemptAdvance_example2 :
    attemptAdvance 5 (insert 6 ({7} : Finset ℕ)) = (7, ∅, [6, 7]) := by
  rw [attemptAdvance_of_mem 5 _ (by decide)]
  norm_num
  rw [attemptAdvance_of_mem 6 _ (by decide)]
  norm_num
  rw [attemptAdvance_of_not_mem _ _ (by decide)]
  exact ⟨rfl, rfl, rfl⟩

/-- C1: checkpoint advance is contiguous-prefix: one attemptAdvance call
repeatedly moves the checkpoint to the next slot while that slot is in
the processed set, removing it and persisting each value, and stops at
the first gap; it never retreats, every slot it passes was processed,
the slot after the final checkpoint was not processed, and in particular
from checkpoint 4 with processed set 5,7 it advances to exactly 5
leaving 7, and after 6 is marked a further call advances to 7. -/
theorem claim_C1_checkpoint_advance_contiguous :
    (∀ c S, c ≤ (attemptAdvance c S).1) ∧
    (∀ c S k, c < k → k ≤ (attemptAdvance c S).1 → k ∈ S) ∧
    (∀ c S, (attemptAdvance c S).1 + 1 ∉ S) ∧
    (∀ c S, (attemptAdvance c S).2.2 = List.range' (c + 1) ((attemptAdvance c S).1 - c)) ∧
    attemptAdvance 4 ({5, 7} : Finset ℕ) = (5, {7}, [5]) ∧
    attemptAdvance 5 (insert 6 ({7} : Finset ℕ)) = (7, ∅, [6, 7]) :=
  ⟨attemptAdvance_le, attemptAdvance_mem_of_passed, attemptAdvance_stops_at_gap,
   attemptAdvance_saves, attemptAdvance_example1, attemptAdvance_example2⟩

/-- C3 counterexample: the token 3- is not dropped: its right-hand part
is the empty string, which Number() converts to 0, so
parseRanges of abc,3- keeps one range, min 3 and max 0, instead of
dropping both tokens as the claim states. -/
theorem counterexample_C3_dash_token_kept :
    parseRanges (some "abc,3-") = [⟨3, 0⟩] ∧ parseRanges (some "abc,3-") ≠ [] :=
  ⟨by decide, by decide⟩

/-- C3 amended: parseRanges splits on commas, trims, drops empty tokens,
maps a single-number token N to the interval N,N and a token A-B to the
interval Number(A),Number(B) without requiring A to be at most B; a token
is dropped only when a side fails numeric parse, and an empty side
converts to 0, so abc,3- keeps the range 3,0; empty or absent input
yields the empty list. -/
theorem claim_C3_parse_ranges :
    parseRanges none = [] ∧
    parseRanges (some "") = [] ∧
    parseRanges (some "5-10, 20") = [⟨5, 10⟩, ⟨20, 20⟩] ∧
    parseRanges (some "abc,3-") = [⟨3, 0⟩] ∧
    (∀ s, s ≠ "" → parseRanges (some s)
        = (((jsSplit s ',').map jsTrim).filter (· != "")).filterMap parseRangeToken) ∧
    (∀ t x, jsSplit t '-' = [x] →
        parseRangeToken t = (jsNumber (jsTrim x)).map (fun n => ⟨n, n⟩)) ∧
    (∀ t x y more mn mx, jsSplit t '-' = x :: y :: more →
        jsNumber (jsTrim x) = some mn → jsNumber (jsTrim y) = some mx →
        parseRangeToken t = some ⟨mn, mx⟩) ∧
    (∀ t, jsNumber (jsTrim ((jsSplit t '-').headD "")) = none → parseRangeToken t = none) := by
  refine ⟨by decide, by decide, by decide, by decide, ?_, ?_, ?_, ?_⟩
  · intro s hs
    unfold parseRanges
    simp [hs]
  · intro t x hx
    unfold parseRangeToken
    rw [hx]
    cases hj : jsNumber (jsTrim x) <;> simp [hj]
  · intro t x y more mn mx hx hmn hmx
    unfold parseRangeToken
    rw [hx]
    simp [hmn, hmx]
  · intro t hnone
    unfold parseRangeToken
    cases hx : jsSplit t '-' with
    | nil =>
      rw [hx] at hnone
      exact absurd hnone (by decide)
    | cons a rest =>
      rw [hx] at hnone
      simp only [List.headD_cons] at hnone
      cases rest with
      | nil => simp [hx, hnone]
      | cons b more => simp [hx, hnone]

/-- C5 counterexample: with a persisted checkpoint of 42 and a current
tip of 100, startup initializes the scheduler at 100, not at the
persisted 42: the loaded checkpoint value is never used as the resume
point. -/
theorem counterexample_C5_startup_ignores_checkpoint :
    initialLastSlot (some 42) (some 100) = 100 ∧ (100 : ℕ) ≠ 42 :=
  ⟨rfl, by decide⟩

/-- C5 amended: the checkpoint file is read at startup but its value is
ignored; the scheduler always initializes the resume point from the
current ledger tip, or 0 when that query fails, even when a checkpoint
is persisted; thereafter the checkpoint value only increases and every
advance persists the new value. -/
theorem claim_C5_startup_from_tip :
    (∀ p t, initialLastSlot p t = t.getD 0) ∧
    (∀ p tip, initialLastSlot p (some tip) = tip) ∧
    (∀ p, initialLastSlot p none = 0) ∧
    (∀ c S, c ≤ (attemptAdvance c S).1) ∧
    (∀ c S, (attemptAdvance c S).2.2 = List.range' (c + 1) ((attemptAdvance c S).1 - c)) := by
  refine ⟨?_, fun p tip => rfl, fun p => rfl, attemptAdvance_le, attemptAdvance_saves⟩
  intro p t
  cases t <;> rfl

/-- C6: fetch scheduling is idempotent and deduplicated: doFetch admits a
slot exactly when it exceeds the checkpoint and is neither in flight nor
processed; an admitted slot is put into the in-flight set, so an
immediately following call for the same slot never starts a second
fetch: two calls for the same eligible slot start exactly one fetch. -/
theorem claim_C6_fetch_dedup :
    (∀ st s, (doFetchStart st s).2 = true ↔
        st.lastSlot < s ∧ s ∉ st.inFlightFetches ∧ s ∉ st.processedSlots) ∧
    (∀ st s, (doFetchStart st s).2 = true →
        (doFetchStart st s).1.inFlightFetches = insert s st.inFlightFetches ∧
        s ∉ st.inFlightFetches) ∧
    (∀ st s, (doFetchStart (doFetchStart st s).1 s).2 = false) ∧
    (∀ st s, st.lastSlot < s → s ∉ st.inFlightFetches → s ∉ st.processedSlots →
        (doFetchStart st s).2 = true ∧ (doFetchStart (doFetchStart st s).1 s).2 = false) := by
  have hiff : ∀ st s, (doFetchStart st s).2 = true ↔
      st.lastSlot < s ∧ s ∉ st.inFlightFetches ∧ s ∉ st.processedSlots := by
    intro st s
    unfold doFetchStart
    by_cases h1 : s ≤ st.lastSlot
    · rw [if_pos h1]
      constructor
      · intro h; simp at h
      · intro h; exact absurd h.1 (by omega)
    · rw [if_neg h1]
      by_cases h2 : s ∈ st.inFlightFetches ∨ s ∈ st.processedSlots
      · rw [if_pos h2]
        constructor
        · intro h; simp at h
        · intro h; rcases h2 with hc | hc
          · exact absurd hc h.2.1
          · exact absurd hc h.2.2
      · rw [if_neg h2]
        push_neg at h2
        exact ⟨fun _ => ⟨by omega, h2.1, h2.2⟩, fun _ => rfl⟩
  have hins : ∀ st s, (doFetchStart st s).2 = true →
      (doFetchStart st s).1.inFlightFetches = insert s st.inFlightFetches ∧
      s ∉ st.inFlightFetches := by
    intro st s h
    have h3 := (hiff st s).mp h
    unfold doFetchStart
    split_ifs with h1 h2
    · omega
    · exact absurd h2 (by tauto)
    · exact ⟨rfl, h3.2.1⟩
  have hsecond : ∀ st s, (doFetchStart (doFetchStart st s).1 s).2 = false := by
    intro st s
    by_cases hfirst : (doFetchStart st s).2 = true
    · have := (hins st s hfirst).1
      rw [Bool.eq_false_iff]
      intro hsnd
      have h4 := (hiff _ s).mp hsnd
      rw [this] at h4
      exact h4.2.1 (Finset.mem_insert_self s _)
    · have hkeep : (doFetchStart st s).1 = st := by
        unfold doFetchStart at hfirst ⊢
        split_ifs at hfirst ⊢ with h1 h2
        · rfl
        · rfl
        · simp at hfirst
      rw [hkeep, Bool.eq_false_iff]
      exact fun h => hfirst h
  exact ⟨hiff, hins, hsecond, fun st s h1 h2 h3 =>
    ⟨(hiff st s).mpr ⟨h1, h2, h3⟩, hsecond st s⟩⟩

/-- C8: the matcher returns true exactly when the amount lies inclusively
inside at least one configured range; 7 matches the range 5 to 10, 11
does not, and the empty range list matches nothing. -/
theorem claim_C8_amount_matches :
    (∀ (x : ℚ) (rs : List Range),
        amountMatchesRanges x rs = true ↔ ∃ r ∈ rs, r.min ≤ x ∧ x ≤ r.max) ∧
    amountMatchesRanges 7 [⟨5, 10⟩] = true ∧
    amountMatchesRanges 11 [⟨5, 10⟩] = false ∧
    (∀ x : ℚ, amountMatchesRanges x [] = false) := by
  refine ⟨?_, by decide, by decide, fun x => rfl⟩
  intro x rs
  unfold amountMatchesRanges
  simp [List.any_eq_true]

/-- C9: per-transaction signature deduplication: an already-seen
signature is not reprocessed; when an insertion pushes the set past the
capacity of 10000 the first 5000 entries in insertion order are evicted;
consequently a set bounded by 10000 before an event is still bounded by
10000 after it. -/
theorem claim_C9_signature_dedup :
    processedTxsMaxSize = 10000 ∧
    processedTxsMaxSize / 2 = 5000 ∧
    (∀ seen sig, sig ∈ seen → dedupSignature seen sig = (seen, false)) ∧
    (∀ seen sig, sig ∉ seen → processedTxsMaxSize < (seen ++ [sig]).length →
        dedupSignature seen sig = ((seen ++ [sig]).drop 5000, true)) ∧
    (∀ seen sig, seen.length ≤ processedTxsMaxSize →
        (dedupSignature seen sig).1.length ≤ processedTxsMaxSize) := by
  refine ⟨rfl, rfl, ?_, ?_, ?_⟩
  · intro seen sig h
    unfold dedupSignature
    simp [h]
  · intro seen sig hmem hlen
    unfold dedupSignature
    simp only [if_neg hmem, if_pos hlen]
    rfl
  · intro seen sig hb
    unfold dedupSignature
    unfold processedTxsMaxSize at hb ⊢
    split_ifs with h1 h2
    · exact hb
    · simp only [List.length_drop, List.length_append, List.length_singleton] at h2 ⊢
      omega
    · simp only [List.length_append, List.length_singleton] at h2 ⊢
      omega

/-- A raw System-Program transfer of 2500000000 base units from the
watched address yields one outflow of 2.5 to the resolved receiver. -/
theorem instrOutflows_raw_transfer (keys : List String) (cex dest : String)
    (pIdx sIdx dIdx : Nat) (hp : keys[pIdx]? = some SYSTEM_PROGRAM)
    (hs : keys[sIdx]? = some cex) (hd : keys[dIdx]? = some dest) (hne : dest ≠ "") :
    instrOutflows keys cex
      { parsed := none, program := none, programIdIndex := some pIdx,
        data := some ([2, 0, 0, 0] ++ [0, 249, 2, 149, 0, 0, 0, 0]),
        accounts := some [sIdx, dIdx] }
      = [{ amount := 5 / 2, receiver := some dest, type := "SOL" }] := by
  have hle : le64 (((([2, 0, 0, 0] ++ [0, 249, 2, 149, 0, 0, 0, 0]) : List Nat).drop 4).take 8)
      = 2500000000 := by decide
  simp only [instrOutflows, outflowsOfRaw, hp, hle]
  norm_num
  rw [hs, hd]
  simp [hne]

/-- With meta present, parseBlockTransactions maps the per-instruction
extraction over the instruction list. -/
theorem parseBlockTransactions_some (sk ak : Option (List String))
    (ins : Option (List Instruction)) (cex : String) :
    parseBlockTransactions
      { meta := some (), transaction := { message :=
          { staticAccountKeys := sk, accountKeys := ak, instructions := ins } } } cex
      = (ins.getD []).flatMap
          (instrOutflows (accountKeysOf ⟨sk, ak, ins⟩) cex) := rfl

/-- With staticAccountKeys present the account table is exactly it. -/
theorem accountKeysOf_static (keys : List String) (ak : Option (List String))
    (ins : Option (List Instruction)) :
    accountKeysOf ⟨some keys, ak, ins⟩ = keys := rfl

/-- C2: a raw instruction whose program index resolves to the System
Program, whose payload is the discriminator 2,0,0,0 followed by the
little-endian 64-bit encoding of 2500000000, whose account indices are
source then destination, and whose source index resolves to the watched
address, yields exactly one outflow of amount 2.5 whose receiver is the
address the destination index resolves to; inside a transaction it
contributes exactly that outflow, and concretely so for a three-entry
account table. -/
theorem claim_C2_raw_transfer_outflow :
    (∀ (keys : List String) (cex dest : String) (pIdx sIdx dIdx : Nat),
        keys[pIdx]? = some SYSTEM_PROGRAM →
        keys[sIdx]? = some cex →
        keys[dIdx]? = some dest →
        dest ≠ "" →
        instrOutflows keys cex
          { parsed := none, program := none, programIdIndex := some pIdx,
            data := some ([2, 0, 0, 0] ++ [0, 249, 2, 149, 0, 0, 0, 0]),
            accounts := some [sIdx, dIdx] }
          = [{ amount := 5 / 2, receiver := some dest, type := "SOL" }]) ∧
    (∀ (keys : List String) (cex dest : String) (pIdx sIdx dIdx : Nat)
        (l1 l2 : List Instruction),
        keys[pIdx]? = some SYSTEM_PROGRAM →
        keys[sIdx]? = some cex →
        keys[dIdx]? = some dest →
        dest ≠ "" →
        parseBlockTransactions
          { meta := some (), transaction := { message :=
              { staticAccountKeys := some keys, accountKeys := none,
                instructions := some (l1 ++
                  { parsed := none, program := none, programIdIndex := some pIdx,
                    data := some ([2, 0, 0, 0] ++ [0, 249, 2, 149, 0, 0, 0, 0]),
                    accounts := some [sIdx, dIdx] } :: l2) } } } cex
          = l1.flatMap (instrOutflows keys cex)
            ++ { amount := 5 / 2, receiver := some dest, type := "SOL" }
            :: l2.flatMap (instrOutflows keys cex)) ∧
    le64 [0, 249, 2, 149, 0, 0, 0, 0] = 2500000000 ∧
    (2500000000 : ℚ) / 1000000000 = 5 / 2 ∧
    instrOutflows ["src", "dst", SYSTEM_PROGRAM] "src"
      { parsed := none, program := none, programIdIndex := some 2,
        data := some [2, 0, 0, 0, 0, 249, 2, 149, 0, 0, 0, 0],
        accounts := some [0, 1] }
      = [{ amount := 5 / 2, receiver := some "dst", type := "SOL" }] := by
  refine ⟨instrOutflows_raw_transfer, ?_, by decide, by norm_num, by decide⟩
  intro keys cex dest pIdx sIdx dIdx l1 l2 hp hs hd hne
  rw [parseBlockTransactions_some]
  simp only [Option.getD_some, List.flatMap_append, List.flatMap_cons, accountKeysOf_static]
  rw [instrOutflows_raw_transfer keys cex dest pIdx sIdx dIdx hp hs hd hne]
  simp

/-- C4: a raw instruction with a payload shorter than 12 bytes, or whose
first four bytes differ from the transfer discriminator, or whose
decoded amount is zero, contributes no outflow, as does one with no
decodable payload at all; and an instruction contributing no outflows
never aborts the scan: the surrounding transaction parses exactly as if
that instruction were absent, so the remaining instructions are still
scanned. -/
theorem claim_C4_malformed_instruction_skipped :
    (∀ (keys : List String) (cex : String) (i : Instruction) (bytes : List Nat),
        i.parsed = none → i.data = some bytes →
        (bytes.length < 12 ∨
         ¬(bytes[0]? = some 2 ∧ bytes[1]? = some 0 ∧
           bytes[2]? = some 0 ∧ bytes[3]? = some 0) ∨
         le64 ((bytes.drop 4).take 8) = 0) →
        instrOutflows keys cex i = []) ∧
    (∀ (keys : List String) (cex : String) (i : Instruction),
        i.parsed = none → i.data = none → instrOutflows keys cex i = []) ∧
    (∀ (meta : Option Unit) (sk ak : Option (List String)) (cex : String)
        (i : Instruction) (l1 l2 : List Instruction),
        instrOutflows (accountKeysOf ⟨sk, ak, some (l1 ++ i :: l2)⟩) cex i = [] →
        parseBlockTransactions
          { meta := meta, transaction := { message :=
              { staticAccountKeys := sk, accountKeys := ak,
                instructions := some (l1 ++ i :: l2) } } } cex
          = parseBlockTransactions
              { meta := meta, transaction := { message :=
                  { staticAccountKeys := sk, accountKeys := ak,
                    instructions := some (l1 ++ l2) } } } cex) := by
  refine ⟨?_, ?_, ?_⟩
  · intro keys cex i bytes hparsed hdata hbad
    obtain ⟨par, prog, pidx, dat, acc⟩ := i
    simp only [] at hparsed hdata
    subst hparsed
    subst hdata
    cases pidx with
    | none => rfl
    | some pIdx =>
      by_cases hp : keys[pIdx]? = some SYSTEM_PROGRAM
      · rcases hbad with hbad | hbad | hbad
        · simp [instrOutflows, outflowsOfRaw, hp, hbad]
        · simp [instrOutflows, outflowsOfRaw, hp, hbad]
        · simp [instrOutflows, outflowsOfRaw, hp, hbad]
      · simp [instrOutflows, outflowsOfRaw, hp]
  · intro keys cex i hparsed hdata
    obtain ⟨par, prog, pidx, dat, acc⟩ := i
    simp only [] at hparsed hdata
    subst hparsed
    subst hdata
    cases pidx with
    | none => rfl
    | some pIdx =>
      by_cases hp : keys[pIdx]? = some SYSTEM_PROGRAM <;>
        simp [instrOutflows, outflowsOfRaw, hp]
  · intro meta sk ak cex i l1 l2 hzero
    cases meta with
    | none => rfl
    | some u =>
      rw [parseBlockTransactions_some, parseBlockTransactions_some]
      simp only [Option.getD_some, List.flatMap_append, List.flatMap_cons]
      have hkeys : accountKeysOf ⟨sk, ak, some (l1 ++ i :: l2)⟩
          = accountKeysOf ⟨sk, ak, some (l1 ++ l2)⟩ := rfl
      rw [← hkeys, hzero]
      simp

/-- A structured System transfer from the watched address with positive
lamports yields one outflow carrying the unchecked destination field. -/
theorem instrOutflows_parsed_transfer (keys : List String) (cex : String) (p : ParsedIx)
    (info : TransferInfo) (v : Int)
    (ht : p.type = "transfer") (hi : p.info = some info)
    (hsrc : info.source = some cex) (hl : info.lamports = some v) (hv : 0 < v) :
    instrOutflows keys cex
      { parsed := some p, program := some "system", programIdIndex := none,
        data := none, accounts := none }
      = [{ amount := (v : ℚ) / 1000000000, receiver := info.destination, type := "SOL" }] := by
  simp only [instrOutflows, outflowsOfParsed, ht, hi, hl]
  simp [hsrc, hv]

/-- A structured-encoding instruction produces outflows only through the
structured branch; with no raw fields the raw fallback yields nothing. -/
theorem instrOutflows_parsed_shape (keys : List String) (cex : String) (p : ParsedIx)
    (prog : Option String) :
    instrOutflows keys cex
      { parsed := some p, program := prog, programIdIndex := none,
        data := none, accounts := none }
      = if prog = some "system" then outflowsOfParsed p cex else [] := rfl

/-- The structured branch emits an outflow exactly when the decoded type
is transfer, an info object is present, its lamports are a positive
value, and its source is the watched address. -/
theorem outflowsOfParsed_ne_nil_iff (p : ParsedIx) (cex : String) :
    outflowsOfParsed p cex ≠ [] ↔
      p.type = "transfer" ∧ ∃ info v, p.info = some info ∧ info.lamports = some v ∧
        info.source = some cex ∧ 0 < v := by
  obtain ⟨ptype, pinfo⟩ := p
  by_cases ht : ptype = "transfer"
  · subst ht
    cases pinfo with
    | none => simp [outflowsOfParsed]
    | some info =>
      cases hl : info.lamports with
      | none => simp [outflowsOfParsed, hl]
      | some v =>
        by_cases hcond : info.source = some cex ∧ 0 < v
        · simp [outflowsOfParsed, hl, hcond.1, hcond.2]
        · have hnil : outflowsOfParsed ⟨"transfer", some info⟩ cex = [] := by
            simp [outflowsOfParsed, hl, hcond]
          rw [hnil]
          constructor
          · intro h
            exact absurd rfl h
          · intro hR
            obtain ⟨-, info1, v1, hinfo, hlam, hsrc, hv⟩ := hR
            simp only [] at hinfo
            cases hinfo
            rw [hl] at hlam
            cases hlam
            exact (hcond ⟨hsrc, hv⟩).elim
  · simp [outflowsOfParsed, ht]

/-- C7 counterexample: a structured transfer instruction that carries no
destination at all (destination undefined) but satisfies every other
condition still makes the parser emit an outflow, with an undefined
receiver; the claim requires that no outflow be emitted unless the
instruction carries a destination. -/
theorem counterexample_C7_missing_destination_still_emits :
    instrOutflows [] "cex"
      { parsed := some
          { type := "transfer",
            info := some
              { source := some "cex", destination := none, lamports := some 5000000000 } },
        program := some "system", programIdIndex := none, data := none, accounts := none }
      = [{ amount := 5, receiver := none, type := "SOL" }] := by decide

/-- C7 amended: for every structured instruction the parser emits an
outflow exactly when the program identity is system, the decoded type is
transfer, an info payload is present, its amount in base units is
strictly positive, and its source equals the watched address; the
presence of a destination is not required, and the emitted outflow
carries amount equal to base units divided by 1e9 and receiver equal to
the instruction's destination field, which may be absent. -/
theorem claim_C7_structured_outflow :
    (∀ (keys : List String) (cex : String) (p : ParsedIx) (info : TransferInfo) (v : Int),
        p.type = "transfer" → p.info = some info →
        info.source = some cex → info.lamports = some v → 0 < v →
        instrOutflows keys cex
          { parsed := some p, program := some "system", programIdIndex := none,
            data := none, accounts := none }
          = [{ amount := (v : ℚ) / 1000000000, receiver := info.destination,
               type := "SOL" }]) ∧
    (∀ (keys : List String) (cex : String) (p : ParsedIx) (prog : Option String),
        instrOutflows keys cex
          { parsed := some p, program := prog, programIdIndex := none,
            data := none, accounts := none } ≠ []
        ↔ prog = some "system" ∧ p.type = "transfer" ∧
          ∃ info v, p.info = some info ∧ info.lamports = some v ∧
            info.source = some cex ∧ 0 < v) := by
  refine ⟨instrOutflows_parsed_transfer, ?_⟩
  intro keys cex p prog
  rw [instrOutflows_parsed_shape]
  by_cases hprog : prog = some "system"
  · rw [if_pos hprog, outflowsOfParsed_ne_nil_iff]
    simp [hprog]
  · rw [if_neg hprog]
    simp [hprog]

/-- C10: a raw instruction passing the program, discriminator, amount and
source checks whose destination index has no account-table entry still
emits an outflow whose receiver is the literal text undefined (the JS
stringification of the missing entry); and a transaction with no meta
field yields no outflows regardless of its instructions. -/
theorem claim_C10_undefined_receiver_and_missing_meta :
    (∀ (keys : List String) (cex : String) (pIdx sIdx dIdx : Nat)
        (bytes : List Nat) (rest : List Nat),
        keys[pIdx]? = some SYSTEM_PROGRAM →
        ¬ bytes.length < 12 →
        bytes[0]? = some 2 → bytes[1]? = some 0 →
        bytes[2]? = some 0 → bytes[3]? = some 0 →
        0 < le64 ((bytes.drop 4).take 8) →
        keys[sIdx]? = some cex →
        keys[dIdx]? = none →
        instrOutflows keys cex
          { parsed := none, program := none, programIdIndex := some pIdx,
            data := some bytes, accounts := some (sIdx :: dIdx :: rest) }
          = [{ amount := (le64 ((bytes.drop 4).take 8) : ℚ) / 1000000000,
               receiver := some "undefined", type := "SOL" }]) ∧
    (∀ (tr : TxInner) (cex : String),
        parseBlockTransactions { meta := none, transaction := tr } cex = []) ∧
    instrOutflows ["src", SYSTEM_PROGRAM] "src"
      { parsed := none, program := none, programIdIndex := some 1,
        data := some [2, 0, 0, 0, 0, 249, 2, 149, 0, 0, 0, 0],
        accounts := some [0, 7] }
      = [{ amount := 5 / 2, receiver := some "undefined", type := "SOL" }] := by
  refine ⟨?_, fun tr cex => rfl, by decide⟩
  intro keys cex pIdx sIdx dIdx bytes rest hp hlen h0 h1 h2 h3 hamt hs hd
  have hnz : ¬ le64 ((bytes.drop 4).take 8) ≤ 0 := by omega
  simp [instrOutflows, outflowsOfRaw, hp, hlen, h0, h1, h2, h3, hnz, hs, hd]
  decide
